import Mathlib

/-!
Shallow embedding of the bittorrent-rust client (src/main.rs, src/peer.rs,
src/torrent.rs, src/tracker.rs) and proofs about its spec claims.

Machine integers (u8, u32, usize) are modelled as `Nat`; wrapping only
matters where noted.  Fallible operations return `Except`/`Option`; paths
on which the Rust code panics are modelled with explicit panic
constructors in the result type, so that "returns a typed recoverable
error" and "aborts the process" are distinguishable propositions.
-/

set_option maxRecDepth 20000

namespace BT

/-! ## peer.rs, `mod message`: MessageType, id, from_id -/

inductive MessageType where
  | Choke
  | Unchoke
  | Interested
  | NotInterested
  | Have
  | Bitfield
  | Request
  | Piece
  | Cancel
deriving DecidableEq, Repr, Fintype

namespace MessageType

/-- Model of `MessageType::id` from src/peer.rs (returns u8, modelled as Nat). -/
def id : MessageType → Nat
  | .Choke => 0
  | .Unchoke => 1
  | .Interested => 2
  | .NotInterested => 3
  | .Have => 4
  | .Bitfield => 5
  | .Request => 6
  | .Piece => 7
  | .Cancel => 8

/-- Model of `MessageType::from_id` from src/peer.rs (takes u8; a u8 value
is a Nat below 256, and the catch-all arm maps every id above 8 to
`none`). -/
def from_id : Nat → Option MessageType
  | 0 => some .Choke
  | 1 => some .Unchoke
  | 2 => some .Interested
  | 3 => some .NotInterested
  | 4 => some .Have
  | 5 => some .Bitfield
  | 6 => some .Request
  | 7 => some .Piece
  | 8 => some .Cancel
  | _ => none

end MessageType

/-! ## peer.rs, `Stream::get_piece_data`: piece length computation.

```rust
let mut remaining_bytes: u32 = if piece == torrent.info.pieces.0.len() as u32 - 1 {
    (torrent.info.length as u32) % (torrent.info.piece_length as u32)
} else {
    torrent.info.piece_length as u32
};
```
-/

/-- Initial `remaining_bytes` of `Stream::get_piece_data`
(src/peer.rs lines 73-77): the byte length the download loop will fetch
for piece index `piece`, given the torrent's `length`, `piece_length`
and piece count `pieces.0.len()`. -/
def remainingBytesInit (piece length pieceLength pieceCount : Nat) : Nat :=
  if piece == pieceCount - 1 then length % pieceLength else pieceLength

/-- The piece byte length the spec's data model prescribes
(spec §3 "Piece"): `piece_length` except for the final piece, whose
length is `total_length - piece_length*(piece_count-1)`. -/
def specPieceLength (piece length pieceLength pieceCount : Nat) : Nat :=
  if piece == pieceCount - 1 then length - pieceLength * (pieceCount - 1)
  else pieceLength

/-! ## Byte helpers: u32 big-endian conversions used throughout peer.rs -/

/-- Model of `u32::to_be_bytes`: the four big-endian bytes of a u32. -/
def u32_to_be_bytes (n : Nat) : List Nat :=
  [n / 2 ^ 24 % 256, n / 2 ^ 16 % 256, n / 2 ^ 8 % 256, n % 256]

/-- Model of `u32::from_be_bytes` on a list of bytes (big-endian fold). -/
def u32_from_be_bytes (bs : List Nat) : Nat :=
  bs.foldl (fun acc b => acc * 256 + b) 0

/-! ## peer.rs, `mod handshake` and `Stream::handshake` -/

def HANDSHAKE_PEER_ID_BYTE_INDEX_START : Nat := 48

def HANDSHAKE_BYTE_BUFFER_SIZE : Nat := 68

/-- Model of the `Handshake` struct from src/peer.rs.  All fields are byte
lists (the Rust `peer_id: String` is held as its UTF-8 bytes, which is
what `as_bytes` serializes). -/
structure Handshake where
  length : Nat
  protocol : List Nat
  reserved : List Nat
  info_hash : List Nat
  peer_id : List Nat

namespace Handshake

/-- Model of `Handshake::new` from src/peer.rs. -/
def new (info_hash_bytes : List Nat) : Handshake where
  length := 19
  protocol := "BitTorrent protocol".toList.map Char.toNat
  reserved := List.replicate 8 0
  info_hash := info_hash_bytes
  peer_id := "00112233445566778899".toList.map Char.toNat

/-- Model of `Handshake::as_bytes` from src/peer.rs: length byte, then
protocol string, reserved bytes, info hash, peer id. -/
def as_bytes (h : Handshake) : List Nat :=
  [h.length] ++ h.protocol ++ h.reserved ++ h.info_hash ++ h.peer_id

end Handshake

/-- Outcome of `Stream::handshake`: either the 68 bytes read back from
the peer, or a read error (the underlying `read_exact` failed because
fewer than 68 bytes arrived). -/
inductive HandshakeOutcome where
  | ok (buf : List Nat)
  | readError
deriving DecidableEq, Repr

/-- Model of `Stream::handshake` from src/peer.rs (lines 28-42): write
`handshake.as_bytes()`, then `read_exact` a 68-byte buffer from the
peer's response stream and return it.  The function performs no
inspection of the bytes read: the `hs` argument influences only what is
written, not whether the read result is accepted. -/
def Stream.handshake (hs : Handshake) (response : List Nat) : HandshakeOutcome :=
  let _ := hs.as_bytes
  if HANDSHAKE_BYTE_BUFFER_SIZE ≤ response.length then
    .ok (response.take HANDSHAKE_BYTE_BUFFER_SIZE)
  else .readError

/-! ## peer.rs, `Stream::send_request_piece` / `Stream::read_request_piece` -/

/-- Model of `Stream::send_request_piece` from src/peer.rs (lines
103-120): the 17-byte request message written to the wire. -/
def Stream.send_request_piece (piece block_index block_size : Nat) : List Nat :=
  u32_to_be_bytes 13 ++ [MessageType.Request.id] ++ u32_to_be_bytes piece
    ++ u32_to_be_bytes block_index ++ u32_to_be_bytes block_size

/-- Outcome of `Stream::read_request_piece`.  The Rust function panics
(aborts the process) rather than returning an error on an unexpected
message id, and indexing `request_buf[0]` on a zero-length buffer also
panics; both aborts are distinguished from `ok`. -/
inductive ReadPieceOutcome where
  | ok (buf : List Nat)
  | panicExpectedPiece
  | panicIndexOutOfBounds
deriving DecidableEq, Repr

/-- Model of `Stream::read_request_piece` from src/peer.rs (lines
122-133): `buf` is the `length`-byte message body read from the peer.
If `request_buf[0] != MessageType::Piece.id()` the code runs
`panic!("expected request piece")`; on an empty body the indexing itself
panics. -/
def Stream.read_request_piece (buf : List Nat) : ReadPieceOutcome :=
  match buf with
  | [] => .panicIndexOutOfBounds
  | b :: _ => if b ≠ MessageType.Piece.id then .panicExpectedPiece else .ok buf

/-- Outcome of the response-processing step of `Stream::get_piece_data`:
the extended assembly buffer, or the abort from a panicking slice
(`request_buf[1..5]` is out of range for bodies of length 1-4,
`request_buf[5..9]` for bodies of length 5-8). -/
inductive PieceStepOutcome where
  | ok (data : List Nat)
  | panicSliceOutOfRange
deriving DecidableEq, Repr

/-- Model of the response-processing step of `Stream::get_piece_data`
(src/peer.rs lines 91-96): slice bytes 1..5 into `piece_data_index` and
bytes 5..9 into `piece_offset_begin` — each slice panics when the body
is too short, in source order — then take the rest as the data block and
extend the assembly buffer with it.  Both extracted fields are dead:
the source never compares them against the outstanding request. -/
def getPieceDataStep (data : List Nat) (request_buf : List Nat) : PieceStepOutcome :=
  if request_buf.length < 5 then .panicSliceOutOfRange
  else if request_buf.length < 9 then .panicSliceOutOfRange
  else
    let piece_data_index := (request_buf.drop 1).take 4
    let piece_offset_begin := (request_buf.drop 5).take 4
    let data_block := request_buf.drop 9
    let _ := piece_data_index
    let _ := piece_offset_begin
    .ok (data ++ data_block)

/-! ## peer.rs, `Stream::get_piece_data` block loop

The while loop (lines 79-99) with state `block_index`, `block_size`,
`remaining_bytes` sends one request per iteration.  `downloadBlocksGo`
records the `(block_index, block_size)` pair of each request sent; the
first argument is fuel bounding the iteration count, a totality device:
from the real entry state (`block_size = 16*1024 > 0`) each iteration
strictly decreases `remaining_bytes`, so `fuel = remaining_bytes`
iterations always suffice. -/

/-- One-to-one model of the request loop of `Stream::get_piece_data`,
with fuel.  Loop body: if `remaining_bytes < block_size` then
`block_size = remaining_bytes`; send request `(block_index, block_size)`;
`remaining_bytes -= block_size`; `block_index += block_size`. -/
def downloadBlocksGo : Nat → Nat → Nat → Nat → List (Nat × Nat)
  | _, _, _, 0 => []
  | 0, _, _, _ + 1 => []
  | fuel + 1, block_index, block_size, r + 1 =>
    let b := if r + 1 < block_size then r + 1 else block_size
    (block_index, b) :: downloadBlocksGo fuel (block_index + b) b (r + 1 - b)

/-- The sequence of `(block_index, block_size)` request pairs sent by the
loop of `Stream::get_piece_data`, starting from the source's entry state
`block_index = 0`, `block_size = 16 * 1024` and
`remaining_bytes = remaining`. -/
def downloadBlocks (remaining : Nat) : List (Nat × Nat) :=
  downloadBlocksGo remaining 0 (16 * 1024) remaining

/-! ## peer.rs, `Stream::wait_unchoke` -/

/-- One iteration's worth of peer behaviour inside the `wait_unchoke`
loop: either the `read_exact` wrapped in `timeout(10s)` does not
complete in time (`stall`), or it fills the buffer with `bytes`. -/
inductive LoopRead where
  | stall
  | msg (bytes : List Nat)
deriving DecidableEq, Repr

/-- Outcome of `Stream::wait_unchoke`: success, the propagated timeout
error from `read_with_timeout`, the panic from indexing
`unchoke_message_buffer[0]` on an empty buffer, or `stillWaiting` when
the supplied reads are exhausted without the loop terminating (the real
loop would keep issuing reads). -/
inductive WaitOutcome where
  | ok
  | timeoutErr
  | panicIndexOutOfBounds
  | stillWaiting
deriving DecidableEq, Repr

/-- The loop of `Stream::wait_unchoke` (src/peer.rs lines 162-168):
repeatedly `read_with_timeout` into the same `length`-byte buffer and
break when `unchoke_message_buffer[0] == MessageType::Unchoke.id()`. -/
def wait_unchoke_loop : List LoopRead → WaitOutcome
  | [] => .stillWaiting
  | .stall :: _ => .timeoutErr
  | .msg bytes :: rest =>
    if bytes.headD 0 = MessageType.Unchoke.id then .ok
    else wait_unchoke_loop rest

/-- Model of `Stream::wait_unchoke` from src/peer.rs (lines 156-170):
read the 4-byte length prefix (`length`), allocate
`unchoke_message_buffer = vec![0; length]`, then loop.  When
`length = 0`, `read_exact` on the empty buffer completes immediately and
`unchoke_message_buffer[0]` panics with an index-out-of-bounds abort
before any peer message is consumed. -/
def wait_unchoke (length : Nat) (reads : List LoopRead) : WaitOutcome :=
  if length = 0 then .panicIndexOutOfBounds
  else wait_unchoke_loop reads

/-! ## torrent.rs, `mod hashes`: `HashesVisitor::visit_bytes` -/

/-- Model of Rust's `slice::chunks_exact(n)` collected to a list, with
fuel (first argument) bounding the recursion for totality; the caller
passes `l.length`, which always suffices since each step drops `n ≥ 1`
elements.  Yields the successive length-`n` chunks of `l`, stopping
before any final fragment shorter than `n`. -/
def chunksExactGo (n : Nat) : Nat → List α → List (List α)
  | 0, _ => []
  | fuel + 1, l =>
    if 0 < n ∧ n ≤ l.length then l.take n :: chunksExactGo n fuel (l.drop n)
    else []

/-- Rust `l.chunks_exact(n).collect()`. -/
def chunksExact (n : Nat) (l : List α) : List (List α) :=
  chunksExactGo n l.length l

/-- Outcome of `HashesVisitor::visit_bytes`: the list of 20-byte hash
records, or the serde custom error produced for a byte string whose
length is not a multiple of 20 (carrying that length, as the Rust error
message does). -/
inductive HashesResult where
  | ok (hashes : List (List Nat))
  | invalidLength (len : Nat)
deriving DecidableEq, Repr

/-- Model of `HashesVisitor::visit_bytes` from src/torrent.rs (lines
88-103): reject when `v.len() % 20 != 0`, otherwise chunk `v` into exact
20-byte records.  The `try_into().expect("guaranteed length 20")` on
each chunk cannot fail because `chunks_exact(20)` only yields length-20
chunks, so the model has no panic outcome. -/
def visit_bytes (v : List Nat) : HashesResult :=
  if v.length % 20 ≠ 0 then .invalidLength v.length
  else .ok (chunksExact 20 v)

/-! ## torrent.rs, `Info::info_hash_urlencoded` -/

/-- Lowercase hex digit for a nibble, as produced by the `hex` crate's
`encode`. -/
def hexChar (n : Nat) : Char :=
  if n < 10 then Char.ofNat (48 + n) else Char.ofNat (97 + (n - 10))

/-- The two lowercase hex characters `hex::encode([byte])` produces for
one byte. -/
def hexByte (b : Nat) : List Char :=
  [hexChar (b / 16), hexChar (b % 16)]

/-- Model of `Info::info_hash_urlencoded` from src/torrent.rs (lines
38-45): for each byte of the 20-byte info hash, push `'%'` and then the
two-character `hex::encode([byte])`, accumulating left to right. -/
def info_hash_urlencoded (hashBytes : List Nat) : List Char :=
  hashBytes.foldl (fun encoded b => encoded ++ '%' :: hexByte b) []

/-! ## main.rs, `decode_bencoded_value`

The Rust function works on `&str` and slices it by byte index; the
model works on `List Char`, which coincides for the ASCII inputs the
bencode grammar is built from.  Every `panic!` and panicking slice in
the source is modelled as an explicit abort constructor.  The first
argument is fuel bounding the recursion depth for totality; every
recursive call in the source consumes at least one character, so
`fuel > input length` never exhausts it. -/

/-- Decoded value tree (the source produces `serde_json::Value`). -/
inductive JsonValue where
  | int (n : Int)
  | str (s : List Char)
  | list (l : List JsonValue)
  | dict (l : List (List Char × JsonValue))

/-- Outcome of `decode_bencoded_value`: a decoded value and the
remainder, or one of the source's process-aborting panics:
`panic!("Dict keys must be strings, ...")`, the catch-all
`panic!("Unhandled encoded value: ...")`, or the implicit panic of the
slice `rest[..length]` when `length` exceeds the remaining input.
`fuelExhausted` is the totality guard, unreachable for fuel above the
input length. -/
inductive DecodeOutcome where
  | ok (v : JsonValue) (rest : List Char)
  | panicDictKey
  | panicUnhandled
  | panicSliceOutOfRange
  | fuelExhausted

/-- Model of Rust `str::split_once(sep)`: split at the first occurrence
of `sep`, or `none` when absent. -/
def splitOnce (sep : Char) : List Char → Option (List Char × List Char)
  | [] => none
  | c :: rest =>
    if c = sep then some ([], rest)
    else
      match splitOnce sep rest with
      | some (pre, post) => some (c :: pre, post)
      | none => none

/-- Digit-string to Nat; `none` when empty or containing a non-digit
character, as Rust's integer `parse` rejects those. -/
def parseDigits (cs : List Char) : Option Nat :=
  if cs = [] then none
  else if cs.all Char.isDigit then
    some (cs.foldl (fun a c => a * 10 + (c.toNat - 48)) 0)
  else none

/-- Model of Rust `str::parse::<i64>()`: optional leading sign, decimal
digits, value within the i64 range. -/
def parseI64 (cs : List Char) : Option Int :=
  let signDigits : Int × List Char :=
    match cs with
    | '-' :: rest => (-1, rest)
    | '+' :: rest => (1, rest)
    | _ => (1, cs)
  match parseDigits signDigits.2 with
  | some n =>
    let v : Int := signDigits.1 * n
    if -(2 ^ 63) ≤ v ∧ v < 2 ^ 63 then some v else none
  | none => none

/-- Model of Rust `str::parse::<usize>()`: optional leading plus,
decimal digits, value within the usize (64-bit) range. -/
def parseUsize (cs : List Char) : Option Nat :=
  let digits : List Char :=
    match cs with
    | '+' :: rest => rest
    | _ => cs
  match parseDigits digits with
  | some n => if n < 2 ^ 64 then some n else none
  | none => none

/-- Insertion into the decoded dictionary (`serde_json::Map::insert`):
replace the value of an existing key, otherwise add the pair. -/
def mapInsert (m : List (List Char × JsonValue)) (k : List Char) (v : JsonValue) :
    List (List Char × JsonValue) :=
  match m with
  | [] => [(k, v)]
  | (k0, v0) :: rest => if k0 = k then (k0, v) :: rest else (k0, v0) :: mapInsert rest k v

/-- A peer behaviour that neither stalls past the 10-second read bound
nor delivers an unchoke: a message arriving in time whose first byte is
not `MessageType::Unchoke.id()`. -/
def isPromptNonUnchoke : LoopRead → Bool
  | .stall => false
  | .msg bytes => bytes.headD 0 ≠ MessageType.Unchoke.id

/-- Lowercase hexadecimal digit test, the alphabet `hex::encode`
emits. -/
def isLowerHexDigit (c : Char) : Bool :=
  "0123456789abcdef".toList.contains c

/-- Concrete 68-byte peer handshake response whose bytes 28..48 (all
255) differ from a locally sent all-zero info hash. -/
def c2response : List Nat :=
  List.replicate 28 0 ++ List.replicate 20 255 ++ List.replicate 20 0

/-- Concrete `piece` message body: id 7, piece_index 9, block_offset 5,
then two data bytes — a block that matches no outstanding request for
piece 0 at offset 0. -/
def c3buf : List Nat :=
  [7, 0, 0, 0, 9, 0, 0, 0, 5, 170, 187]

mutual

/-- Model of `decode_bencoded_value` from src/main.rs (lines 52-117).
Branches in source order: `'i'` integer, `'l'` list, `'d'` dict, a
decimal digit for a string, and the final
`panic!("Unhandled encoded value")` for everything else (including
failed integer parses and inputs with no terminator). -/
def decode_bencoded_value : Nat → List Char → DecodeOutcome
  | 0, _ => .fuelExhausted
  | fuel + 1, encoded_value =>
    match encoded_value with
    | 'i' :: after_i =>
      match splitOnce 'e' after_i with
      | some (digits, rest) =>
        match parseI64 digits with
        | some n => .ok (.int n) rest
        | none => .panicUnhandled
      | none => .panicUnhandled
    | 'l' :: after_l => decodeListLoop fuel after_l []
    | 'd' :: after_d => decodeDictLoop fuel after_d [] 0 []
    | c :: _ =>
      if c.isDigit then
        match splitOnce ':' encoded_value with
        | some (lenStr, rest) =>
          match parseUsize lenStr with
          | some length =>
            if length ≤ rest.length then .ok (.str (rest.take length)) (rest.drop length)
            else .panicSliceOutOfRange
          | none => .panicUnhandled
        | none => .panicUnhandled
      else .panicUnhandled
    | [] => .panicUnhandled

/-- The `'l'` branch's `while !remainder.starts_with('e')` loop: decode
elements, pushing each onto `values`, until the terminator. -/
def decodeListLoop : Nat → List Char → List JsonValue → DecodeOutcome
  | 0, _, _ => .fuelExhausted
  | fuel + 1, remainder, values =>
    if remainder.head? = some 'e' then .ok (.list values) (remainder.drop 1)
    else
      match decode_bencoded_value fuel remainder with
      | .ok value rest => decodeListLoop fuel rest (values ++ [value])
      | e => e

/-- The `'d'` branch's loop with its `count`/`key` state: items
alternate between keys (which must decode to strings, else
`panic!("Dict keys must be strings, ...")`) and values. -/
def decodeDictLoop :
    Nat → List Char → List (List Char × JsonValue) → Nat → List Char → DecodeOutcome
  | 0, _, _, _, _ => .fuelExhausted
  | fuel + 1, remainder, map, count, key =>
    if remainder.head? = some 'e' then .ok (.dict map) (remainder.drop 1)
    else
      match decode_bencoded_value fuel remainder with
      | .ok value rest =>
        if count = 0 then
          match value with
          | .str k => decodeDictLoop fuel rest map 1 k
          | _ => .panicDictKey
        else decodeDictLoop fuel rest (mapInsert map key value) 0 key
      | e => e

end

/-! ## Theorems -/

/-- C10: `MessageType::from_id` is the inverse of `MessageType::id`:
`from_id (id m) = some m` for every known kind; every byte `n ≤ 8` maps
to `some m` with `id m = n`; and `from_id n = none` exactly when
`n > 8`. -/
theorem C10_from_id_id_inverse :
    (∀ m : MessageType, MessageType.from_id m.id = some m) ∧
    (∀ n : Nat, n < 256 →
      ((n ≤ 8 → ∃ m : MessageType, MessageType.from_id n = some m ∧ m.id = n) ∧
       (MessageType.from_id n = none ↔ 8 < n))) := by
  constructor
  · decide
  · decide

/-- Witness for C10 at the concrete byte values 4 and 9. -/
theorem C10_witness :
    MessageType.from_id MessageType.Have.id = some MessageType.Have ∧
    (4 ≤ 8 → ∃ m : MessageType, MessageType.from_id 4 = some m ∧ m.id = 4) ∧
    (MessageType.from_id 9 = none ↔ 8 < 9) :=
  ⟨C10_from_id_id_inverse.1 MessageType.Have,
   (C10_from_id_id_inverse.2 4 (by decide)).1,
   (C10_from_id_id_inverse.2 9 (by decide)).2⟩

/-- C1: evaluation of the piece-length computation of
`Stream::get_piece_data` at a torrent with `length = 32`,
`piece_length = 16`, hence piece count `2 = ceil(32/16)`, an exact
multiple.  The code's `length % piece_length` yields `0` for the last
piece (index 1), while the spec's `total_length -
piece_length*(piece_count-1)` yields `16`; non-last pieces agree. -/
theorem C1_last_piece_exact_multiple_bug :
    remainingBytesInit 1 32 16 2 = 0 ∧
    specPieceLength 1 32 16 2 = 16 ∧
    2 = (32 + 16 - 1) / 16 ∧
    remainingBytesInit 0 32 16 2 = 16 ∧
    specPieceLength 0 32 16 2 = 16 := by
  decide

/-- C4: the code aborts instead of returning typed recoverable errors on
malformed input.  Decoding the bencoded dictionary `di1e3:fooe` (integer
key 1) reaches `panic!("Dict keys must be strings, ...")`, and a
post-handshake message body with id 6 where `piece` (7) is expected
reaches `panic!("expected request piece")`. -/
theorem C4_panics_on_malformed_input :
    decode_bencoded_value 100 "di1e3:fooe".toList = DecodeOutcome.panicDictKey ∧
    Stream.read_request_piece [6, 0, 0, 0, 0, 0, 0, 0, 0, 0, 0, 0, 0] =
      ReadPieceOutcome.panicExpectedPiece := by
  exact ⟨rfl, rfl⟩

/-- C5: a keep-alive (zero length prefix) received while waiting for
unchoke makes `Stream::wait_unchoke` allocate an empty buffer and panic
on `unchoke_message_buffer[0]`; it does not discard the message and
continue (contrast: with a nonzero length, a non-unchoke message is in
fact discarded and a later unchoke succeeds). -/
theorem C5_keepalive_panics :
    wait_unchoke 0 [LoopRead.msg [], LoopRead.msg [1, 0, 0, 0, 0]] =
      WaitOutcome.panicIndexOutOfBounds ∧
    wait_unchoke 5 [LoopRead.msg [4, 0, 0, 0, 0], LoopRead.msg [1, 0, 0, 0, 0]] =
      WaitOutcome.ok := by
  decide

/-- Counterexample for C2: a 68-byte response whose bytes 28..48 (all
255) differ from the all-zero info hash that was sent, yet
`Stream::handshake` returns it as success — it never fails on the
mismatch. -/
theorem C2_counterexample :
    Stream.handshake (Handshake.new (List.replicate 20 0)) c2response =
      HandshakeOutcome.ok c2response ∧
    (c2response.drop 28).take 20 ≠ (Handshake.new (List.replicate 20 0)).info_hash := by
  decide

/-- C2 amended: `Stream::handshake` performs no verification of the
response.  Bytes 28..48 of the message it sends are the local info
hash, but whenever 68 response bytes are read the function succeeds
with them, even when their bytes 28..48 differ from that hash. -/
theorem C2_handshake_no_verification (ih resp : List Nat)
    (hih : ih.length = 20) (hresp : resp.length = 68)
    (hdiff : (resp.drop 28).take 20 ≠ ih) :
    (((Handshake.new ih).as_bytes.drop 28).take 20 = ih) ∧
    Stream.handshake (Handshake.new ih) resp = HandshakeOutcome.ok resp := by
  constructor
  · have hsplit : (Handshake.new ih).as_bytes =
        ([19] ++ "BitTorrent protocol".toList.map Char.toNat ++ List.replicate 8 0)
          ++ (ih ++ "00112233445566778899".toList.map Char.toNat) := by
      simp [Handshake.new, Handshake.as_bytes]
    have hpre : ([19] ++ "BitTorrent protocol".toList.map Char.toNat
        ++ List.replicate 8 0 : List Nat).length = 28 := by decide
    rw [hsplit, List.drop_left' hpre, List.take_left' hih]
  · have h68 : HANDSHAKE_BYTE_BUFFER_SIZE ≤ resp.length := by
      rw [hresp]; decide
    rw [Stream.handshake, if_pos h68]
    have : resp.take HANDSHAKE_BYTE_BUFFER_SIZE = resp := by
      rw [show HANDSHAKE_BYTE_BUFFER_SIZE = (68 : Nat) from rfl, ← hresp, List.take_length]
    rw [this]

/-- Witness for C2 at the concrete mismatching response `c2response`. -/
theorem C2_witness :
    (List.replicate 20 (0 : Nat)).length = 20 ∧
    c2response.length = 68 ∧
    (c2response.drop 28).take 20 ≠ List.replicate 20 0 ∧
    ((((Handshake.new (List.replicate 20 0)).as_bytes.drop 28).take 20 =
        List.replicate 20 0) ∧
      Stream.handshake (Handshake.new (List.replicate 20 0)) c2response =
        HandshakeOutcome.ok c2response) :=
  ⟨by decide, by decide, by decide,
   C2_handshake_no_verification (List.replicate 20 0) c2response
     (by decide) (by decide) (by decide)⟩

/-- Counterexample for C3: with the outstanding request for piece 0 at
offset 0 (the 17-byte request message shown), a `piece` response body
carrying piece_index 9 and block_offset 5 is accepted by
`read_request_piece` and its data bytes are appended by the
`get_piece_data` step — no `UnexpectedBlock` failure occurs. -/
theorem C3_counterexample :
    Stream.send_request_piece 0 0 16384 =
      [0, 0, 0, 13, 6, 0, 0, 0, 0, 0, 0, 0, 0, 0, 0, 64, 0] ∧
    u32_from_be_bytes ((c3buf.drop 1).take 4) = 9 ∧
    u32_from_be_bytes ((c3buf.drop 5).take 4) = 5 ∧
    (9 ≠ 0 ∧ 5 ≠ 0) ∧
    Stream.read_request_piece c3buf = ReadPieceOutcome.ok c3buf ∧
    getPieceDataStep [] c3buf = PieceStepOutcome.ok [170, 187] := by
  decide

/-- C3 amended: the piece_index and block_offset fields of a `piece`
response are extracted but never compared with the outstanding request.
Any response body of at least 9 bytes whose first byte is the `piece` id
is accepted and its data (bytes 9..) appended to the assembly buffer,
whatever values those fields carry; a shorter body aborts through a
panicking slice — in neither case does an `UnexpectedBlock` failure
exist. -/
theorem C3_no_block_verification (p o : Nat) (data buf : List Nat)
    (h7 : buf.head? = some MessageType.Piece.id)
    (hmismatch : u32_from_be_bytes ((buf.drop 1).take 4) ≠ p ∨
      u32_from_be_bytes ((buf.drop 5).take 4) ≠ o) :
    Stream.read_request_piece buf = ReadPieceOutcome.ok buf ∧
    (9 ≤ buf.length →
      getPieceDataStep data buf = PieceStepOutcome.ok (data ++ buf.drop 9)) ∧
    (buf.length < 9 →
      getPieceDataStep data buf = PieceStepOutcome.panicSliceOutOfRange) := by
  cases buf with
  | nil => simp at h7
  | cons b rest =>
    have hb : b = MessageType.Piece.id := by simpa using h7
    refine ⟨by simp [Stream.read_request_piece, hb], ?_, ?_⟩
    · intro hlen
      rw [getPieceDataStep, if_neg (by omega), if_neg (by omega)]
    · intro hlen
      rw [getPieceDataStep]
      rcases Nat.lt_or_ge (b :: rest).length 5 with h5 | h5
      · rw [if_pos h5]
      · rw [if_neg (by omega), if_pos (by omega)]

/-- Witness for C3 at the concrete mismatching response `c3buf`
(requested piece 0, offset 0; the body has 11 bytes, so the append
branch applies). -/
theorem C3_witness :
    c3buf.head? = some MessageType.Piece.id ∧
    u32_from_be_bytes ((c3buf.drop 1).take 4) ≠ 0 ∧
    (Stream.read_request_piece c3buf = ReadPieceOutcome.ok c3buf ∧
      (9 ≤ c3buf.length →
        getPieceDataStep [] c3buf = PieceStepOutcome.ok ([] ++ c3buf.drop 9)) ∧
      (c3buf.length < 9 →
        getPieceDataStep [] c3buf = PieceStepOutcome.panicSliceOutOfRange)) :=
  ⟨by decide, by decide,
   C3_no_block_verification 0 0 [] c3buf (by decide) (Or.inl (by decide))⟩

/-- The `wait_unchoke` loop passes over any run of promptly delivered
non-unchoke messages without changing its outcome. -/
theorem wait_unchoke_loop_discards (pre : List LoopRead)
    (hpre : ∀ r ∈ pre, isPromptNonUnchoke r = true) (tail : List LoopRead) :
    wait_unchoke_loop (pre ++ tail) = wait_unchoke_loop tail := by
  induction pre with
  | nil => rfl
  | cons r pre ih =>
    have hr := hpre r (by simp)
    have hrest : ∀ x ∈ pre, isPromptNonUnchoke x = true := fun x hx => hpre x (by simp [hx])
    cases r with
    | stall => simp [isPromptNonUnchoke] at hr
    | msg bytes =>
      have hb : ¬ bytes.headD 0 = MessageType.Unchoke.id := by
        simpa [isPromptNonUnchoke] using hr
      rw [List.cons_append]
      rw [show wait_unchoke_loop (LoopRead.msg bytes :: (pre ++ tail)) =
          if bytes.headD 0 = MessageType.Unchoke.id then WaitOutcome.ok
          else wait_unchoke_loop (pre ++ tail) from rfl]
      rw [if_neg hb]
      exact ih hrest

/-- Counterexample for C6: a peer that sends one hundred prompt `have`
messages and no unchoke.  The loop has discarded them all and is still
waiting — it has not failed with the timeout error, contradicting the
claim that a bounded maximum total wait forces Timeout regardless of how
many non-unchoke messages the peer keeps sending. -/
theorem C6_counterexample :
    wait_unchoke 5 (List.replicate 100 (LoopRead.msg [4, 0, 0, 0, 0])) =
      WaitOutcome.stillWaiting ∧
    WaitOutcome.stillWaiting ≠ WaitOutcome.timeoutErr := by
  decide

/-- C6 amended: the only bound in `Stream::wait_unchoke` is the
10-second `read_with_timeout` on each individual read.  After any run of
promptly delivered non-unchoke messages, a single read that stalls past
the bound yields the timeout error; but with no such stall the loop is
still waiting after the whole run, however long — there is no cap on the
total wait. -/
theorem C6_per_read_timeout_only (length : Nat) (pre rest : List LoopRead)
    (hlen : length ≠ 0) (hpre : ∀ r ∈ pre, isPromptNonUnchoke r = true) :
    wait_unchoke length (pre ++ LoopRead.stall :: rest) = WaitOutcome.timeoutErr ∧
    wait_unchoke length pre = WaitOutcome.stillWaiting := by
  constructor
  · rw [wait_unchoke, if_neg hlen, wait_unchoke_loop_discards pre hpre]
    rfl
  · rw [wait_unchoke, if_neg hlen, ← List.append_nil pre,
      wait_unchoke_loop_discards pre hpre]
    rfl

/-- Witness for C6 at a run of three prompt `have` messages followed by
a stalled read. -/
theorem C6_witness :
    (5 : Nat) ≠ 0 ∧
    (∀ r ∈ List.replicate 3 (LoopRead.msg [4, 0, 0, 0, 0]),
      isPromptNonUnchoke r = true) ∧
    (wait_unchoke 5 (List.replicate 3 (LoopRead.msg [4, 0, 0, 0, 0])
        ++ LoopRead.stall :: []) = WaitOutcome.timeoutErr ∧
      wait_unchoke 5 (List.replicate 3 (LoopRead.msg [4, 0, 0, 0, 0])) =
        WaitOutcome.stillWaiting) :=
  ⟨by decide, by decide,
   C6_per_read_timeout_only 5 (List.replicate 3 (LoopRead.msg [4, 0, 0, 0, 0])) []
     (by decide) (by decide)⟩

/-- Full behaviour of `chunks_exact`: on a list of length `n * k` it
yields exactly `k` chunks, each of length `n`, whose concatenation is
the original list. -/
theorem chunksExactGo_spec {α : Type} (n : Nat) (hn : 0 < n) :
    ∀ (k fuel : Nat) (l : List α), l.length = n * k → l.length ≤ fuel →
      (chunksExactGo n fuel l).length = k ∧
      (∀ c ∈ chunksExactGo n fuel l, c.length = n) ∧
      (chunksExactGo n fuel l).flatten = l := by
  intro k
  induction k with
  | zero =>
    intro fuel l hl hf
    have hnil : l = [] := List.eq_nil_of_length_eq_zero (by omega)
    subst hnil
    cases fuel with
    | zero => exact ⟨rfl, by simp [chunksExactGo], rfl⟩
    | succ f =>
      have hguard : ¬ (0 < n ∧ n ≤ ([] : List α).length) := by
        simp only [List.length_nil]
        omega
      rw [show chunksExactGo n (f + 1) ([] : List α) =
          (if 0 < n ∧ n ≤ ([] : List α).length then
            ([] : List α).take n :: chunksExactGo n f (([] : List α).drop n)
          else []) from rfl]
      rw [if_neg hguard]
      exact ⟨rfl, by simp, rfl⟩
  | succ k ih =>
    intro fuel l hl hf
    have hlen : n ≤ l.length := by
      rw [hl]
      calc n = n * 1 := by ring
        _ ≤ n * (k + 1) := Nat.mul_le_mul_left n (by omega)
    have hpos : 0 < l.length := by omega
    cases fuel with
    | zero => omega
    | succ f =>
      have hdroplen : (l.drop n).length = n * k := by
        rw [List.length_drop, hl]
        calc n * (k + 1) - n = n * k + n * 1 - n := by ring_nf
          _ = n * k := by omega
      have hdropfuel : (l.drop n).length ≤ f := by
        rw [List.length_drop]
        omega
      obtain ⟨ihlen, ihmem, ihflat⟩ := ih f (l.drop n) hdroplen hdropfuel
      rw [show chunksExactGo n (f + 1) l =
          (if 0 < n ∧ n ≤ l.length then l.take n :: chunksExactGo n f (l.drop n)
          else []) from rfl]
      rw [if_pos ⟨hn, hlen⟩]
      refine ⟨by simp [ihlen], ?_, ?_⟩
      · intro c hc
        rcases List.mem_cons.mp hc with hc | hc
        · rw [hc, List.length_take]
          omega
        · exact ihmem c hc
      · rw [List.flatten_cons, ihflat, List.take_append_drop]

/-- C7: a `pieces` byte string whose length is not a multiple of 20
makes `HashesVisitor::visit_bytes` return the length error (never a
crash: the model is total with no panic outcome); one of length `20*k`
yields exactly `k` records of 20 bytes each whose in-order concatenation
is the input (so nothing is truncated). -/
theorem C7_pieces_chunking (v : List Nat) :
    (v.length % 20 ≠ 0 → visit_bytes v = HashesResult.invalidLength v.length) ∧
    (∀ k, v.length = 20 * k →
      visit_bytes v = HashesResult.ok (chunksExact 20 v) ∧
      (chunksExact 20 v).length = k ∧
      (∀ c ∈ chunksExact 20 v, c.length = 20) ∧
      (chunksExact 20 v).flatten = v) := by
  constructor
  · intro h
    rw [visit_bytes, if_pos h]
  · intro k hk
    have hmod : ¬ v.length % 20 ≠ 0 := by omega
    obtain ⟨hl, hm, hf⟩ :=
      chunksExactGo_spec 20 (by omega) k v.length v hk (Nat.le_refl _)
    exact ⟨by rw [visit_bytes, if_neg hmod], hl, hm, hf⟩

/-- Witness for C7: a 30-byte input is rejected with its length; a
40-byte input yields exactly 2 records. -/
theorem C7_witness :
    visit_bytes (List.range 30) = HashesResult.invalidLength (List.range 30).length ∧
    visit_bytes (List.range 40) = HashesResult.ok (chunksExact 20 (List.range 40)) ∧
    (chunksExact 20 (List.range 40)).length = 2 :=
  ⟨(C7_pieces_chunking (List.range 30)).1 (by decide),
   ((C7_pieces_chunking (List.range 40)).2 2 (by decide)).1,
   ((C7_pieces_chunking (List.range 40)).2 2 (by decide)).2.1⟩

/-- Unfolding equation for the empty-remaining case of the download
loop. -/
theorem downloadBlocksGo_zero (fuel idx bsize : Nat) :
    downloadBlocksGo fuel idx bsize 0 = [] := by
  cases fuel <;> rfl

/-- Unfolding equation for one iteration of the download loop. -/
theorem downloadBlocksGo_succ (fuel idx bsize r : Nat) :
    downloadBlocksGo (fuel + 1) idx bsize (r + 1) =
      (idx, if r + 1 < bsize then r + 1 else bsize) ::
        downloadBlocksGo fuel (idx + (if r + 1 < bsize then r + 1 else bsize))
          (if r + 1 < bsize then r + 1 else bsize)
          (r + 1 - (if r + 1 < bsize then r + 1 else bsize)) := rfl

/-- Closed form of the request sequence: from block size 16384 and
remaining bytes `16384 * k + r` (with `r < 16384`), the loop sends `k`
full 16384-byte requests at offsets `idx + 16384 * i`, then one request
of size `r` exactly when `r ≠ 0`. -/
theorem downloadBlocksGo_char (r : Nat) (hr : r < 16384) :
    ∀ (k fuel idx : Nat), 16384 * k + r ≤ fuel →
      downloadBlocksGo fuel idx 16384 (16384 * k + r) =
        (List.range k).map (fun i => (idx + 16384 * i, 16384)) ++
          (if r = 0 then [] else [(idx + 16384 * k, r)]) := by
  intro k
  induction k with
  | zero =>
    intro fuel idx hfuel
    simp only [Nat.mul_zero, Nat.zero_add, List.range_zero, List.map_nil,
      List.nil_append]
    rcases Nat.eq_zero_or_pos r with hr0 | hrpos
    · subst hr0
      rw [downloadBlocksGo_zero]
      simp
    · obtain ⟨q, rfl⟩ : ∃ q, r = q + 1 := ⟨r - 1, by omega⟩
      cases fuel with
      | zero => omega
      | succ f =>
        rw [downloadBlocksGo_succ]
        simp only [hr, if_true, Nat.sub_self, downloadBlocksGo_zero]
        simp
  | succ k ih =>
    intro fuel idx hfuel
    have hrem : 16384 * (k + 1) + r = 16384 * k + r + 16383 + 1 := by ring
    cases fuel with
    | zero => omega
    | succ f =>
      rw [hrem, downloadBlocksGo_succ]
      have hnlt : ¬ (16384 * k + r + 16383 + 1 < 16384) := by omega
      simp only [hnlt, if_false]
      have hsub : 16384 * k + r + 16383 + 1 - 16384 = 16384 * k + r := by omega
      rw [hsub, ih f (idx + 16384) (by omega)]
      rw [List.range_succ_eq_map, List.map_cons, List.map_map, List.cons_append]
      have hhead : (idx + 16384 * 0, 16384) = (idx, 16384) := by simp
      have hmaps : (List.range k).map
            ((fun i => (idx + 16384 * i, 16384)) ∘ Nat.succ) =
          (List.range k).map (fun i => (idx + 16384 + 16384 * i, 16384)) := by
        apply List.map_congr_left
        intro a _
        simp only [Function.comp_apply, Prod.mk.injEq, and_true]
        omega
      have htail : idx + 16384 * (k + 1) = idx + 16384 + 16384 * k := by ring
      rw [hhead, hmaps, htail]

/-- The first request of the download loop is sent at the entry block
index (stated with a default whose first component is that index, so it
also holds vacuously for an empty request list). -/
theorem downloadBlocksGo_headD_fst (fuel idx bsize r : Nat) :
    ((downloadBlocksGo fuel idx bsize r).headD (idx, 0)).1 = idx := by
  cases r with
  | zero => rw [downloadBlocksGo_zero]; rfl
  | succ q =>
    cases fuel with
    | zero => rfl
    | succ f => rw [downloadBlocksGo_succ]; rfl

/-- Consecutive requests of the download loop are adjacent: each block
offset is the previous offset plus the previous block's length. -/
theorem downloadBlocksGo_chain (fuel : Nat) :
    ∀ idx bsize r, List.Chain' (fun b1 b2 => b2.1 = b1.1 + b1.2)
      (downloadBlocksGo fuel idx bsize r) := by
  induction fuel with
  | zero =>
    intro idx bsize r
    cases r <;> exact List.chain'_nil
  | succ f ih =>
    intro idx bsize r
    cases r with
    | zero => rw [downloadBlocksGo_zero]; exact List.chain'_nil
    | succ q =>
      rw [downloadBlocksGo_succ]
      apply List.chain'_cons'.mpr
      refine ⟨?_, ih _ _ _⟩
      intro y hy
      have hfst := downloadBlocksGo_headD_fst f
        (idx + (if q + 1 < bsize then q + 1 else bsize))
        (if q + 1 < bsize then q + 1 else bsize)
        (q + 1 - (if q + 1 < bsize then q + 1 else bsize))
      rw [Option.mem_def] at hy
      rw [List.headD_eq_head?, hy] at hfst
      simpa using hfst

/-- C8: for a piece of byte length `L > 0`, the request sequence of
`Stream::get_piece_data` is nonempty, starts at offset 0, each later
offset is the previous offset plus the previous block's length, every
block has positive size at most 16384; when `16384 ∣ L` there are
exactly `L / 16384` blocks, all of size 16384; otherwise the final block
has size `L % 16384` at offset `16384 * (L / 16384)` (in particular no
zero-length block is ever requested). -/
theorem C8_block_partition (L : Nat) (hL : 0 < L) :
    0 < (downloadBlocks L).length ∧
    ((downloadBlocks L).headD (1, 1)).1 = 0 ∧
    List.Chain' (fun b1 b2 => b2.1 = b1.1 + b1.2) (downloadBlocks L) ∧
    (∀ b ∈ downloadBlocks L, 0 < b.2 ∧ b.2 ≤ 16384) ∧
    (16384 ∣ L →
      (downloadBlocks L).length = L / 16384 ∧
      ∀ b ∈ downloadBlocks L, b.2 = 16384) ∧
    (¬ 16384 ∣ L →
      (downloadBlocks L).getLast? = some (16384 * (L / 16384), L % 16384)) := by
  have hr : L % 16384 < 16384 := Nat.mod_lt _ (by omega)
  have hLdecomp : 16384 * (L / 16384) + L % 16384 = L := Nat.div_add_mod L 16384
  have hchar : downloadBlocks L =
      (List.range (L / 16384)).map (fun i => (0 + 16384 * i, 16384)) ++
        (if L % 16384 = 0 then [] else [(0 + 16384 * (L / 16384), L % 16384)]) := by
    rw [downloadBlocks,
      show downloadBlocksGo L 0 (16 * 1024) L =
        downloadBlocksGo L 0 16384 (16384 * (L / 16384) + L % 16384) by
          rw [hLdecomp]]
    exact downloadBlocksGo_char (L % 16384) hr (L / 16384) L 0 (by omega)
  have hdvd : 16384 ∣ L ↔ L % 16384 = 0 := by omega
  have hlen : (downloadBlocks L).length =
      L / 16384 + (if L % 16384 = 0 then 0 else 1) := by
    rw [hchar]
    rcases Nat.eq_zero_or_pos (L % 16384) with h0 | hpos
    · simp [h0]
    · have : ¬ L % 16384 = 0 := by omega
      simp [this]
  have hlenpos : 0 < (downloadBlocks L).length := by
    rw [hlen]
    rcases Nat.eq_zero_or_pos (L % 16384) with h0 | hpos
    · rw [if_pos h0]
      omega
    · rw [if_neg (by omega)]
      omega
  refine ⟨hlenpos, ?_, ?_, ?_, ?_, ?_⟩
  · obtain ⟨x, xs, hx⟩ : ∃ x xs, downloadBlocks L = x :: xs := by
      cases hcase : downloadBlocks L with
      | nil => rw [hcase] at hlenpos; simp at hlenpos
      | cons x xs => exact ⟨x, xs, rfl⟩
    have h0 := downloadBlocksGo_headD_fst L 0 (16 * 1024) L
    rw [show downloadBlocksGo L 0 (16 * 1024) L = downloadBlocks L from rfl,
      hx] at h0
    rw [hx]
    simpa using h0
  · exact downloadBlocksGo_chain L 0 (16 * 1024) L
  · intro b hb
    rw [hchar] at hb
    rcases List.mem_append.mp hb with hb | hb
    · obtain ⟨i, _, hib⟩ := List.mem_map.mp hb
      rw [← hib]
      omega
    · rcases Nat.eq_zero_or_pos (L % 16384) with h0 | hpos
      · rw [if_pos h0] at hb
        simp at hb
      · rw [if_neg (by omega)] at hb
        rw [List.mem_singleton.mp hb]
        constructor
        · exact hpos
        · omega
  · intro hdiv
    have h0 : L % 16384 = 0 := hdvd.mp hdiv
    constructor
    · rw [hlen, if_pos h0]
      omega
    · intro b hb
      rw [hchar, if_pos h0, List.append_nil] at hb
      obtain ⟨i, _, hib⟩ := List.mem_map.mp hb
      rw [← hib]
  · intro hdiv
    have h0 : ¬ L % 16384 = 0 := fun h => hdiv (hdvd.mpr h)
    rw [hchar, if_neg h0]
    have : (0 : Nat) + 16384 * (L / 16384) = 16384 * (L / 16384) := by omega
    rw [this]
    simp

/-- Witness for C8 at the concrete piece length 20000 (one full 16384
block and a 3616-byte remainder). -/
theorem C8_witness :
    0 < 20000 ∧
    (0 < (downloadBlocks 20000).length ∧
      ((downloadBlocks 20000).headD (1, 1)).1 = 0 ∧
      List.Chain' (fun b1 b2 => b2.1 = b1.1 + b1.2) (downloadBlocks 20000) ∧
      (∀ b ∈ downloadBlocks 20000, 0 < b.2 ∧ b.2 ≤ 16384) ∧
      (16384 ∣ 20000 →
        (downloadBlocks 20000).length = 20000 / 16384 ∧
        ∀ b ∈ downloadBlocks 20000, b.2 = 16384) ∧
      (¬ 16384 ∣ 20000 →
        (downloadBlocks 20000).getLast? =
          some (16384 * (20000 / 16384), 20000 % 16384))) :=
  ⟨by decide, C8_block_partition 20000 (by decide)⟩

/-- The push-loop of `info_hash_urlencoded` equals the concatenation,
over the hash bytes in order, of the three-character group
`'%'` followed by the two hex characters of the byte. -/
theorem info_hash_urlencoded_eq_flatMap (bs : List Nat) :
    info_hash_urlencoded bs = bs.flatMap (fun b => '%' :: hexByte b) := by
  suffices h : ∀ acc : List Char,
      bs.foldl (fun encoded b => encoded ++ '%' :: hexByte b) acc =
        acc ++ bs.flatMap (fun b => '%' :: hexByte b) by
    simpa [info_hash_urlencoded] using h []
  induction bs with
  | nil => intro acc; simp
  | cons b bs ih =>
    intro acc
    simp only [List.foldl_cons, List.flatMap_cons, ih, List.append_assoc]

/-- Each percent-group contributes exactly three characters. -/
theorem flatMap_percent_group_length (bs : List Nat) :
    (bs.flatMap (fun b => '%' :: hexByte b)).length = 3 * bs.length := by
  induction bs with
  | nil => rfl
  | cons b bs ih =>
    rw [List.flatMap_cons, List.length_append, ih]
    have : ('%' :: hexByte b).length = 3 := rfl
    rw [this, List.length_cons]
    omega

/-- Nibble values render as lowercase hexadecimal digits. -/
theorem hexChar_mem_alphabet : ∀ n : Nat, n < 16 → isLowerHexDigit (hexChar n) = true := by
  decide

/-- C9: `Info::info_hash_urlencoded` renders every byte of a 20-byte
info hash — safe URL characters included, since the rendering is uniform
in the byte — as the three-character group `%XX` with two lowercase hex
digits, and the result has length exactly 60. -/
theorem C9_urlencoded_every_byte (hs : List Nat) (h20 : hs.length = 20)
    (hb : ∀ b ∈ hs, b < 256) :
    info_hash_urlencoded hs = hs.flatMap (fun b => '%' :: hexByte b) ∧
    (info_hash_urlencoded hs).length = 60 ∧
    ∀ b ∈ hs, (hexByte b).length = 2 ∧
      ∀ c ∈ hexByte b, isLowerHexDigit c = true := by
  refine ⟨info_hash_urlencoded_eq_flatMap hs, ?_, ?_⟩
  · rw [info_hash_urlencoded_eq_flatMap, flatMap_percent_group_length, h20]
  · intro b hbmem
    refine ⟨rfl, ?_⟩
    intro c hc
    have hblt := hb b hbmem
    have hhi : b / 16 < 16 := by omega
    have hlo : b % 16 < 16 := by omega
    rcases List.mem_cons.mp hc with hcc | hcc
    · rw [hcc]
      exact hexChar_mem_alphabet _ hhi
    · rw [List.mem_singleton.mp hcc]
      exact hexChar_mem_alphabet _ hlo

/-- Witness for C9 at the 20-byte hash 0,1,...,19. -/
theorem C9_witness :
    (List.range 20).length = 20 ∧
    (∀ b ∈ List.range 20, b < 256) ∧
    (info_hash_urlencoded (List.range 20) =
        (List.range 20).flatMap (fun b => '%' :: hexByte b) ∧
      (info_hash_urlencoded (List.range 20)).length = 60 ∧
      ∀ b ∈ List.range 20, (hexByte b).length = 2 ∧
        ∀ c ∈ hexByte b, isLowerHexDigit c = true) :=
  ⟨by decide, by decide,
   C9_urlencoded_every_byte (List.range 20) (by decide) (by decide)⟩

end BT
